import Mathlib

/-!
Verification of the temporal-terraform-demo core: the `tfexec` process
client, the `tfworkspace` bundle builder and workspace, and the
plan-approve-apply workflow loop, shallowly embedded in Lean.

Go strings are embedded as Lean `String`s; byte payloads that the code
parses as JSON are embedded as their parse trees (`Json` below); Go maps
whose identity matters (mutation claims) are embedded through an explicit
heap of association lists; the subprocess and the activity results reach
the embedded functions as explicit inputs.
-/

namespace TfDemo

/-- `strContainsSub s t` holds when `t` occurs contiguously inside `s`. -/
def strContainsSub (s t : String) : Prop :=
  ∃ pre post, s = pre ++ t ++ post

namespace Tfexec

/-- The error message built by `Terraform.Plan` for an exit code outside
the detailed-exit-code convention (`fmt.Errorf("terraform plan unexpected
exit code: %d", exitCode)`). -/
def planUnexpectedMsg (exitCode : Int) : String :=
  "terraform plan unexpected exit code: " ++ toString exitCode

/-- Modelled from the spec: the detailed-exit-code variant of the process
executor used by `Terraform.Plan` (the variant that sets
`detailedExitCode = true`) is not among the provided sources; per the spec
it returns the observed exit code of the completed subprocess to the
caller, letting the client interpret the tri-state convention. -/
def terraformExecDetailed (exitCode : Int) : Except String Int :=
  .ok exitCode

/-- `Terraform.Plan` after the subprocess run: propagate an executor
error, otherwise interpret the detailed exit code
(0 = no diff, 2 = diff, anything else = protocol error). -/
def Plan (execResult : Except String Int) : Bool × Option String :=
  match execResult with
  | .error e => (false, some e)
  | .ok exitCode =>
    if exitCode = 0 then (false, none)
    else if exitCode = 2 then (true, none)
    else (false, some (planUnexpectedMsg exitCode))

/-- Go `json.Unmarshal` source payloads, embedded as parse trees. -/
inductive Json where
  | null
  | bool (b : Bool)
  | num (n : Int)
  | str (s : String)
  | arr (elems : List Json)
  | obj (fields : List (String × Json))

/-- `json.Unmarshal` into a Go `string`: succeeds exactly on a JSON
string (and on `null`, which Go leaves at the zero value). -/
def unmarshalString : Json → Option String
  | .str s => some s
  | .null => some ""
  | _ => none

/-- `json.Unmarshal` into a Go `[]string`: an array of strings (with
`null` elements left at the zero value), or `null` itself. -/
def unmarshalStringList : Json → Option (List String)
  | .arr es => es.mapM unmarshalString
  | .null => some []
  | _ => none

/-- `json.Unmarshal` into a Go `int`: succeeds exactly on a number
(embedded here as an integer) and on `null`. -/
def unmarshalInt : Json → Option Int
  | .num n => some n
  | .null => some 0
  | _ => none

/-- The result of `parseJson`: a Go `interface{}` holding a string, a
string slice, an int, or the untouched raw message. -/
inductive GoValue where
  | str (s : String)
  | strList (l : List String)
  | int (n : Int)
  | raw (msg : Json)

/-- `parseJson`: try string, then string list, then int, else return the
raw message unchanged. -/
def parseJson (message : Json) : GoValue :=
  match unmarshalString message with
  | some s => .str s
  | none =>
    match unmarshalStringList message with
    | some ss => .strList ss
    | none =>
      match unmarshalInt message with
      | some n => .int n
      | none => .raw message

end Tfexec

namespace Tfworkspace

/-- Split a character sequence at newline characters (the lines of a
rendered text, Go `strings.Split(s, "\n")`). -/
def splitNl : List Char → List (List Char)
  | [] => [[]]
  | c :: cs =>
    match splitNl cs with
    | [] => [[c]]
    | r :: rs => if c = '\n' then [] :: r :: rs else (c :: r) :: rs

/-- Join lines with newline characters (inverse of `splitNl` for
newline-free lines). -/
def joinNl : List (List Char) → List Char
  | [] => []
  | [l] => l
  | l :: ls => l ++ '\n' :: joinNl ls

/-- `tfworkspace.S3BackendConfig` (field order as in the source). -/
structure S3BackendConfig where
  bucket : String
  key : String
  region : String
  assumeRoleArn : String
  profile : String

/-- The output of executing `s3BackendTemplate` on a config: Go
`text/template` substitutes each value verbatim between the quote
characters of the template text, and the `{{- with }}` blocks emit the
`profile` / `role_arn` lines only when the field is non-empty (with the
surrounding newlines trimmed).  `\x7b`/`\x7d` denote the brace
characters of the rendered text. -/
def s3BackendTemplate (c : S3BackendConfig) : String :=
  "\nterraform \x7b\n\tbackend \"s3\" \x7b\n\t\tencrypt    = true\n\t\tbucket     = \"" ++ c.bucket ++
  "\"\n\t\tkey        = \"" ++ c.key ++
  "\"\n\t\tregion     = \"" ++ c.region ++ "\"" ++
  (if c.profile = "" then "" else "\n\t\tprofile    = \"" ++ c.profile ++ "\"") ++
  (if c.assumeRoleArn = "" then "" else "\n\t\trole_arn   = \"" ++ c.assumeRoleArn ++ "\"") ++
  "\n\t\x7d\n\x7d"

/-- The same rendered text as a list of lines. -/
def s3BackendLines (c : S3BackendConfig) : List (List Char) :=
  [[], "terraform \x7b".data, "\tbackend \"s3\" \x7b".data,
   "\t\tencrypt    = true".data,
   "\t\tbucket     = \"".data ++ c.bucket.data ++ ['"'],
   "\t\tkey        = \"".data ++ c.key.data ++ ['"'],
   "\t\tregion     = \"".data ++ c.region.data ++ ['"']] ++
  (if c.profile = "" then [] else ["\t\tprofile    = \"".data ++ c.profile.data ++ ['"']]) ++
  (if c.assumeRoleArn = "" then [] else ["\t\trole_arn   = \"".data ++ c.assumeRoleArn.data ++ ['"']]) ++
  [['\t', '\x7d'], ['\x7d']]

/-- A well-formed double-quoted string literal with no interior quote
and no backslash escape: opening quote, safe interior, closing quote. -/
def isSafeStringLiteral : List Char → Bool
  | '"' :: rest =>
    !rest.isEmpty && (rest.getLast? == some '"') &&
      rest.dropLast.all fun ch => !(ch == '"') && !(ch == '\\')
  | _ => false

/-- A value whose verbatim interpolation cannot break the quoted
literal: no quote, backslash, or newline characters. -/
def goodValue (s : String) : Prop :=
  '"' ∉ s.data ∧ '\\' ∉ s.data ∧ '\n' ∉ s.data

/-- `tfworkspace.BundleBuilder` configuration (accumulated by the
chained `With…`/`Source` calls): the metadata entries, whether a source
filesystem was supplied (`b.fsys != nil`), and whether a backend render
function was installed (`b.backendFunc != nil`). -/
structure BundleBuilder where
  metadata : List (String × String)
  hasFsys : Bool
  root : String
  hasBackendFunc : Bool

/-- Outcomes of the fallible filesystem and archive steps of one
`BundleForApply` call, in source order: the temp-file name chosen by
`os.CreateTemp`, and the error (if any) each step would produce. -/
structure ApplyBundleRun where
  tempName : String
  createTempErr : Option String
  walkErr : Option String
  backendRenderErr : Option String
  backendCreateErr : Option String
  backendWriteErr : Option String
  varsCreateErr : Option String
  varsMarshalErr : Option String
  varsWriteErr : Option String
  metadataErr : String → Option String
  closeErr : Option String

/-- Outcomes of the fallible steps of one `BundleForDestroy` call, in
source order. -/
structure DestroyBundleRun where
  tempName : String
  createTempErr : Option String
  versionsOpenErr : Option String
  versionsCreateErr : Option String
  versionsCopyErr : Option String
  backendRenderErr : Option String
  backendCreateErr : Option String
  backendWriteErr : Option String
  metadataErr : String → Option String
  closeErr : Option String

/-- First error wins (sequential early-return of the Go code). -/
def orErr : Option String → Option String → Option String
  | some e, _ => some e
  | none, o => o

/-- The metadata-writing loop: first failing entry aborts. -/
def metadataLoopErr (entries : List (String × String))
    (mdErr : String → Option String) : Option String :=
  match entries with
  | [] => none
  | (k, _) :: rest =>
    match mdErr k with
    | some e => some e
    | none => metadataLoopErr rest mdErr

/-- The body of `BundleForApply` after the temp file exists: tree walk,
optional backend render and write, vars entry create / marshal / write,
metadata loop, zip close — first error aborts. -/
def bundleForApplyBodyErr (b : BundleBuilder) (run : ApplyBundleRun) :
    Option String :=
  orErr run.walkErr
    (orErr (if b.hasBackendFunc then
        orErr run.backendRenderErr
          (orErr run.backendCreateErr run.backendWriteErr)
      else none)
      (orErr run.varsCreateErr
        (orErr run.varsMarshalErr
          (orErr run.varsWriteErr
            (orErr (metadataLoopErr b.metadata run.metadataErr)
              run.closeErr)))))

/-- The body of `BundleForDestroy` after the temp file exists: open
`versions.tf`, create its zip entry, copy it, optional backend render
and write, metadata loop, zip close — first error aborts. -/
def bundleForDestroyBodyErr (b : BundleBuilder) (run : DestroyBundleRun) :
    Option String :=
  orErr run.versionsOpenErr
    (orErr run.versionsCreateErr
      (orErr run.versionsCopyErr
        (orErr (if b.hasBackendFunc then
            orErr run.backendRenderErr
              (orErr run.backendCreateErr run.backendWriteErr)
          else none)
          (orErr (metadataLoopErr b.metadata run.metadataErr)
            run.closeErr))))

/-- `BundleBuilder.BundleForApply`: nil-fsys check, `os.CreateTemp`
(after which the archive file exists on disk), the body, and the
deferred cleanup that removes the file whenever an error is returned.
The second component records whether the archive file still exists on
disk when the call returns. -/
def BundleForApply (b : BundleBuilder) (run : ApplyBundleRun) :
    Except String String × Bool :=
  if !b.hasFsys then
    (.error "cannot bundle terraform without fs and root", false)
  else
    match run.createTempErr with
    | some e => (.error e, false)
    | none =>
      match bundleForApplyBodyErr b run with
      | some e => (.error e, false)
      | none => (.ok run.tempName, true)

/-- `BundleBuilder.BundleForDestroy`, same shape as `BundleForApply`
with the destroy-specific body. -/
def BundleForDestroy (b : BundleBuilder) (run : DestroyBundleRun) :
    Except String String × Bool :=
  if !b.hasFsys then
    (.error "cannot bundle terraform without fs and root", false)
  else
    match run.createTempErr with
    | some e => (.error e, false)
    | none =>
      match bundleForDestroyBodyErr b run with
      | some e => (.error e, false)
      | none => (.ok run.tempName, true)

/-- The operations `Workspace.Apply` performs after init, as observable
events. -/
inductive ApplyOp where
  | importOp (address : String) (id : String)
  | applyOp
  | outputOp
deriving DecidableEq, Repr

/-- The speculative-import loop of `Workspace.Apply` (lines 88-102):
each entry's import is attempted and its error intentionally ignored;
after each import the context is checked and a cancellation aborts the
run at once.  `importErr` gives the (ignored) per-address import
outcome; `ctxErr i` is what `ctx.Err()` returns after the i-th import. -/
def importLoop : List (String × String) → (String → Option String) →
    (Nat → Option String) → Nat → Except String Unit × List ApplyOp
  | [], _, _, _ => (.ok (), [])
  | (k, v) :: rest, importErr, ctxErr, idx =>
    let _ignored := importErr k
    match ctxErr idx with
    | some e => (.error e, [.importOp k v])
    | none =>
      let r := importLoop rest importErr ctxErr (idx + 1)
      (r.1, .importOp k v :: r.2)

/-- `Workspace.Apply` from the import loop onward: run the loop, then
terraform apply, then terraform output. -/
def applyAfterInit (imports : List (String × String))
    (importErr : String → Option String) (ctxErr : Nat → Option String)
    (applyErr : Option String)
    (outputResult : Except String (List (String × Tfexec.GoValue))) :
    Except String (List (String × Tfexec.GoValue)) × List ApplyOp :=
  match importLoop imports importErr ctxErr 0 with
  | (.error e, ops) => (.error e, ops)
  | (.ok _, ops) =>
    match applyErr with
    | some e => (.error ("terraform apply error: " ++ e), ops ++ [.applyOp])
    | none =>
      match outputResult with
      | .error e =>
        (.error ("terraform output error: " ++ e), ops ++ [.applyOp, .outputOp])
      | .ok out => (.ok out, ops ++ [.applyOp, .outputOp])

/-- Go maps with identity: a heap of association-list maps addressed by
reference (index). -/
abbrev EnvMap := List (String × String)

/-- A heap of environment maps. -/
abbrev Heap := List EnvMap

/-- Dereference (a missing reference reads as the empty map). -/
def heapGet (h : Heap) (r : Nat) : EnvMap := h.getD r []

/-- Write through a reference. -/
def heapSet (h : Heap) (r : Nat) (m : EnvMap) : Heap := h.set r m

/-- Go map assignment `m[k] = v` on an association list. -/
def envSet (m : EnvMap) (k v : String) : EnvMap :=
  match m with
  | [] => [(k, v)]
  | (k2, v2) :: rest => if k2 = k then (k, v) :: rest else (k2, v2) :: envSet rest k v

/-- An AWS credentials triple. -/
structure Credentials where
  accessKeyID : String
  secretAccessKey : String
  sessionToken : String

/-- The env preparation of `Workspace.Apply` (lines 71-86) and
`Workspace.Destroy` (lines 156-171): allocate a fresh map, copy every
entry of the caller's map into it, then set the three AWS credential
keys on the copy.  Returns the new heap and the fresh reference. -/
def injectCredentials (h : Heap) (envRef : Nat) (creds : Credentials) :
    Heap × Nat :=
  let fresh := h.length
  let h1 := h ++ [heapGet h envRef]
  let withCreds :=
    envSet (envSet (envSet (heapGet h1 fresh)
      "AWS_ACCESS_KEY_ID" creds.accessKeyID)
      "AWS_SECRET_ACCESS_KEY" creds.secretAccessKey)
      "AWS_SESSION_TOKEN" creds.sessionToken
  (heapSet h1 fresh withCreds, fresh)

/-- `terraformEnv` (workflows): allocate a fresh `secretEnv` map holding
the three credential entries, then copy every `mergeEnv` entry into it.
Returns the new heap and the fresh reference. -/
def terraformEnv (h : Heap) (mergeRef : Nat) (creds : Credentials) :
    Heap × Nat :=
  let secretEnv : EnvMap :=
    [("AWS_ACCESS_KEY_ID", creds.accessKeyID),
     ("AWS_SECRET_ACCESS_KEY", creds.secretAccessKey),
     ("AWS_SESSION_TOKEN", creds.sessionToken)]
  let merged := (heapGet h mergeRef).foldl (fun m kv => envSet m kv.1 kv.2) secretEnv
  (h ++ [merged], h.length)

end Tfworkspace

namespace Tfexec

/-- ASCII whitespace for `strings.TrimSpace` (the error-marker lines the
code scans are ASCII). -/
def isSpaceChar (c : Char) : Bool :=
  c = ' ' || c = '\t' || c = '\n' || c = '\r' || c = '\x0b' || c = '\x0c'

/-- Go `strings.TrimSpace`. -/
def trimSpace (s : String) : String :=
  ⟨((s.data.dropWhile isSpaceChar).reverse.dropWhile isSpaceChar).reverse⟩

/-- `terraformErrorInterceptor.Write`: if the chunk's trimmed text
starts with `Error:` append the chunk verbatim to the accumulated
errors; always report the full length written and no write error. -/
def interceptorWrite (errors : List String) (p : String) :
    List String × Nat × Option String :=
  (if (trimSpace p).startsWith "Error:" then errors ++ [p] else errors,
    p.length, none)

/-- The interceptor folded over every chunk the subprocess wrote to
stdout or stderr (each chunk one line, as the spec describes the
stream). -/
def runInterceptor (chunks : List String) : List String :=
  chunks.foldl (fun acc p => (interceptorWrite acc p).1) []

/-- `fmt.Errorf("terraform error: %s\n%w", strings.Join(errors, "\n"), err)`. -/
def terraformExecErrMsg (errors : List String) (waitErr : String) : String :=
  "terraform error: " ++ String.intercalate "\n" errors ++ "\n" ++ waitErr

/-- `terraformExec` outcome given the streamed chunks and the
`cmd.Wait` result: a failing exit produces the aggregated error
message, a clean exit produces none. -/
def terraformExec (chunks : List String) (waitErr : Option String) :
    Option String :=
  match waitErr with
  | some e => some (terraformExecErrMsg (runInterceptor chunks) e)
  | none => none

/-- Result of a `syscall.Kill` attempt. -/
inductive KillResult where
  | ok
  | errProcessDone
  | errOther (e : String)

/-- Signals the cancellation goroutine can emit: SIGINT to the process
group, SIGKILL to the process group, direct kill of the child handle. -/
inductive CancelAction where
  | sigintGroup
  | sigkillGroup
  | killChild
deriving DecidableEq, Repr

/-- The poll interval of the cancellation grace loop, in milliseconds. -/
def pollIntervalMs : Nat := 200

/-- The grace deadline of the cancellation loop, in milliseconds. -/
def graceTimeoutMs : Nat := 30000

/-- The cancellation goroutine of `terraformExec` (lines 74-108), as the
sequence of signals it emits: nothing when the process already exited;
otherwise a SIGINT attempt to the group first; if that attempt errors
with `os.ErrProcessDone`, return; if it errors otherwise, SIGKILL the
group and kill the child immediately; then the 200 ms / 30 s poll loop
(abstracted to whether the process exits within the grace window), and
a final SIGKILL plus child kill only when it does not. -/
def cancelProtocol (exitedAtCancel : Bool) (sigintResult : KillResult)
    (exitsWithinGrace : Bool) : List CancelAction :=
  if exitedAtCancel then []
  else
    match sigintResult with
    | .errProcessDone => [.sigintGroup]
    | .errOther _ =>
      [.sigintGroup, .sigkillGroup, .killChild] ++
        (if exitsWithinGrace then [] else [.sigkillGroup, .killChild])
    | .ok =>
      [.sigintGroup] ++
        (if exitsWithinGrace then [] else [.sigkillGroup, .killChild])

end Tfexec

namespace Workflows

/-- `tfworkspace.PlanOutput`: whether the plan found changes, and the
path of the saved plan file. -/
structure PlanOutput where
  hasChanges : Bool
  planFile : String

/-- `tfworkspace.ApplyOutput`: the decoded output mapping. -/
structure ApplyOutput where
  output : List (String × Tfexec.GoValue)

/-- The zero value `tfworkspace.ApplyOutput{}`. -/
def emptyOutput : ApplyOutput := ⟨[]⟩

/-- Observable events of one workflow run: activity invocations and
signal receipts, in program order. -/
inductive WfEvent where
  | planInvoked
  | applyInvoked
  | signalReceived (decision : String)
deriving DecidableEq, Repr

/-- How a run ends: a returned result (with or without error), or still
pending on an activity or signal beyond the supplied inputs. -/
inductive WfOutcome where
  | done (out : ApplyOutput) (err : Option String)
  | pending

/-- The decision loop of `TerraformPlanAndApplyWorkflow`, embedded over
the successive Plan-activity results, the successive decision signals,
and the Apply-activity result.  Each iteration runs the Plan activity;
an errored plan or an empty diff returns; otherwise one decision token
is received: `"plan"` continues the loop, `"reject"` returns the empty
output, `"approve"` runs the Apply activity and returns its result, and
any other token falls through to the bottom of the `for` body and
continues the loop.  When the supplied inputs run out the run is still
pending on the corresponding await. -/
def wfLoop : List (Except String PlanOutput) → List String →
    Except String ApplyOutput → List WfEvent × WfOutcome
  | [], _, _ => ([.planInvoked], .pending)
  | p :: ps, ds, applyResult =>
    match p with
    | .error e => ([.planInvoked], .done emptyOutput (some e))
    | .ok planOutput =>
      if !planOutput.hasChanges then ([.planInvoked], .done emptyOutput none)
      else
        match ds with
        | [] => ([.planInvoked], .pending)
        | d :: ds2 =>
          if d = "plan" then
            let rest := wfLoop ps ds2 applyResult
            (.planInvoked :: .signalReceived d :: rest.1, rest.2)
          else if d = "reject" then
            ([.planInvoked, .signalReceived d], .done emptyOutput none)
          else if d = "approve" then
            match applyResult with
            | .error e =>
              ([.planInvoked, .signalReceived d, .applyInvoked],
                .done emptyOutput (some e))
            | .ok out =>
              ([.planInvoked, .signalReceived d, .applyInvoked], .done out none)
          else
            let rest := wfLoop ps ds2 applyResult
            (.planInvoked :: .signalReceived d :: rest.1, rest.2)

/-- How many times a run invoked the Plan activity. -/
def countPlanInvocations : List WfEvent → Nat
  | [] => 0
  | .planInvoked :: es => countPlanInvocations es + 1
  | _ :: es => countPlanInvocations es

/-- `TerraformPlanAndApplyWorkflow`: bundle once, then run the decision
loop with that bundle. -/
def TerraformPlanAndApplyWorkflow (bundleResult : Except String String)
    (plans : List (Except String PlanOutput)) (decisions : List String)
    (applyResult : Except String ApplyOutput) : List WfEvent × WfOutcome :=
  match bundleResult with
  | .error e => ([], .done emptyOutput (some e))
  | .ok _ => wfLoop plans decisions applyResult

end Workflows


open Tfworkspace

theorem splitNl_ne_nil (l : List Char) : splitNl l ≠ [] := by
  cases l with
  | nil => simp [splitNl]
  | cons c cs =>
    simp only [splitNl]
    match h : splitNl cs with
    | [] => simp
    | r :: rs =>
      by_cases hc : c = '\n' <;> simp [hc]

theorem splitNl_cons_nl (cs : List Char) :
    splitNl ('\n' :: cs) = [] :: splitNl cs := by
  simp only [splitNl]
  match h : splitNl cs with
  | [] => exact absurd h (splitNl_ne_nil cs)
  | r :: rs => simp

theorem splitNl_no_nl (l : List Char) (hl : '\n' ∉ l) : splitNl l = [l] := by
  induction l with
  | nil => rfl
  | cons c cs ih =>
    have hc : c ≠ '\n' := fun h => hl (h ▸ List.mem_cons_self c cs)
    have hcs : '\n' ∉ cs := fun h => hl (List.mem_cons_of_mem c h)
    rw [splitNl]
    rw [ih hcs]
    simp [hc]

theorem splitNl_line_append (xs ys : List Char) (hxs : '\n' ∉ xs) :
    splitNl (xs ++ '\n' :: ys) = xs :: splitNl ys := by
  induction xs with
  | nil => simpa using splitNl_cons_nl ys
  | cons c cs ih =>
    have hc : c ≠ '\n' := fun h => hxs (h ▸ List.mem_cons_self c cs)
    have hcs : '\n' ∉ cs := fun h => hxs (List.mem_cons_of_mem c h)
    rw [List.cons_append, splitNl, ih hcs]
    simp [hc]

theorem splitNl_joinNl (ls : List (List Char)) (hne : ls ≠ [])
    (h : ∀ l ∈ ls, '\n' ∉ l) : splitNl (joinNl ls) = ls := by
  induction ls with
  | nil => exact absurd rfl hne
  | cons l ls ih =>
    cases ls with
    | nil => simpa [joinNl] using splitNl_no_nl l (h l (List.mem_cons_self l []))
    | cons l2 ls2 =>
      have hj : joinNl (l :: l2 :: ls2) = l ++ '\n' :: joinNl (l2 :: ls2) := rfl
      rw [hj, splitNl_line_append l _ (h l (List.mem_cons_self l _))]
      rw [ih (by simp) (fun x hx => h x (List.mem_cons_of_mem l hx))]

theorem s3_join (c : S3BackendConfig) :
    (s3BackendTemplate c).data = joinNl (s3BackendLines c) := by
  by_cases hp : c.profile = "" <;> by_cases ha : c.assumeRoleArn = "" <;>
    simp [s3BackendTemplate, s3BackendLines, joinNl, hp, ha, String.data_append]

-- prefix test
example (v : List Char) : ¬ ("\t\tprofile".data <+: ("\t\tbucket     = \"".data ++ v)) := by
  simp [List.cons_prefix_cons]

theorem isSafeStringLiteral_quoted (v : List Char) (hq : '"' ∉ v)
    (hbs : '\\' ∉ v) : isSafeStringLiteral ('"' :: v ++ ['"']) = true := by
  show (!(v ++ ['"']).isEmpty && ((v ++ ['"']).getLast? == some '"') &&
    (v ++ ['"']).dropLast.all fun ch => !(ch == '"') && !(ch == '\\')) = true
  rw [List.dropLast_concat, List.getLast?_concat]
  simp only [Bool.and_eq_true, List.all_eq_true]
  refine ⟨⟨by simp, by simp⟩, fun ch hch => ?_⟩
  have h1 : ch ≠ '"' := fun h => hq (h ▸ hch)
  have h2 : ch ≠ '\\' := fun h => hbs (h ▸ hch)
  simp [h1, h2]

theorem mem_ite_nil_left {P : Prop} [Decidable P] (x : List (List Char))
    (a : List Char) (h : a ∈ (if P then [] else x)) : a ∈ x := by
  by_cases hP : P
  · simp [hP] at h
  · simpa [hP] using h

theorem no_nl_value_line (label v : List Char) (hlab : '\n' ∉ label)
    (hv : '\n' ∉ v) : '\n' ∉ label ++ v ++ ['"'] := by
  intro hmem
  rcases List.mem_append.mp hmem with h1 | h2
  · rcases List.mem_append.mp h1 with h3 | h4
    · exact hlab h3
    · exact hv h4
  · simp at h2

theorem s3_lines (c : S3BackendConfig)
    (hb : '\n' ∉ c.bucket.data) (hk : '\n' ∉ c.key.data)
    (hr : '\n' ∉ c.region.data) (ha : '\n' ∉ c.assumeRoleArn.data)
    (hp : '\n' ∉ c.profile.data) :
    splitNl (s3BackendTemplate c).data = s3BackendLines c := by
  rw [s3_join]
  apply splitNl_joinNl
  · simp [s3BackendLines]
  · intro l hl
    simp only [s3BackendLines, List.append_assoc, List.mem_append] at hl
    rcases hl with hA | hp3 | ha3 | hB
    · simp only [List.mem_cons, List.not_mem_nil, or_false] at hA
      rcases hA with rfl | rfl | rfl | rfl | rfl | rfl | rfl
      · simp
      · decide
      · decide
      · decide
      · exact no_nl_value_line "\t\tbucket     = \"".data c.bucket.data (by decide) hb
      · exact no_nl_value_line "\t\tkey        = \"".data c.key.data (by decide) hk
      · exact no_nl_value_line "\t\tregion     = \"".data c.region.data (by decide) hr
    · have := List.mem_singleton.mp (mem_ite_nil_left _ _ hp3)
      subst this
      exact no_nl_value_line "\t\tprofile    = \"".data c.profile.data (by decide) hp
    · have := List.mem_singleton.mp (mem_ite_nil_left _ _ ha3)
      subst this
      exact no_nl_value_line "\t\trole_arn   = \"".data c.assumeRoleArn.data (by decide) ha
    · simp only [List.mem_cons, List.not_mem_nil, or_false] at hB
      rcases hB with rfl | rfl
      · decide
      · decide



/-- C6 counterexample: for the backend config with bucket `a"b` the
rendered output's bucket line carries the value interpolated verbatim,
so the text after the `bucket` label is not a safe quoted string
literal — the template quotes but does not escape. -/
theorem s3_backend_escaping_counterexample :
    "\t\tbucket     = ".data <+: "\t\tbucket     = \"a\"b\"".data ∧
    "\t\tbucket     = \"a\"b\"".data ∈
      splitNl (s3BackendTemplate ⟨"a\"b", "k", "r", "", ""⟩).data ∧
    isSafeStringLiteral
      ("\t\tbucket     = \"a\"b\"".data.drop "\t\tbucket     = ".data.length) =
      false :=
  ⟨by decide, by decide, by decide⟩

/-- C6 amended: the template wraps every interpolated value verbatim in
double quotes without escaping, so each value line is a well-formed
quoted string literal only when the value itself contains no quote,
backslash, or newline; and an empty `profile` or `role_arn` field
produces no rendered line at all (no line of the output starts with that
field's label). -/
theorem s3_backend_quoting_and_omission (c : S3BackendConfig) (hb : goodValue c.bucket)
    (hk : goodValue c.key) (hr : goodValue c.region)
    (ha : goodValue c.assumeRoleArn) (hp : goodValue c.profile) :
    (("\t\tbucket     = ".data ++ '"' :: c.bucket.data ++ ['"'] ∈
        splitNl (s3BackendTemplate c).data ∧
      isSafeStringLiteral ('"' :: c.bucket.data ++ ['"']) = true) ∧
     ("\t\tkey        = ".data ++ '"' :: c.key.data ++ ['"'] ∈
        splitNl (s3BackendTemplate c).data ∧
      isSafeStringLiteral ('"' :: c.key.data ++ ['"']) = true) ∧
     ("\t\tregion     = ".data ++ '"' :: c.region.data ++ ['"'] ∈
        splitNl (s3BackendTemplate c).data ∧
      isSafeStringLiteral ('"' :: c.region.data ++ ['"']) = true) ∧
     (c.profile ≠ "" →
       "\t\tprofile    = ".data ++ '"' :: c.profile.data ++ ['"'] ∈
         splitNl (s3BackendTemplate c).data ∧
       isSafeStringLiteral ('"' :: c.profile.data ++ ['"']) = true) ∧
     (c.assumeRoleArn ≠ "" →
       "\t\trole_arn   = ".data ++ '"' :: c.assumeRoleArn.data ++ ['"'] ∈
         splitNl (s3BackendTemplate c).data ∧
       isSafeStringLiteral ('"' :: c.assumeRoleArn.data ++ ['"']) = true)) ∧
    ((c.profile = "" → ∀ l ∈ splitNl (s3BackendTemplate c).data,
        ¬ ("\t\tprofile".data <+: l)) ∧
     (c.assumeRoleArn = "" → ∀ l ∈ splitNl (s3BackendTemplate c).data,
        ¬ ("\t\trole_arn".data <+: l))) := by
  have hlines := s3_lines c hb.2.2 hk.2.2 hr.2.2 ha.2.2 hp.2.2
  constructor
  · refine ⟨⟨?_, isSafeStringLiteral_quoted _ hb.1 hb.2.1⟩,
      ⟨?_, isSafeStringLiteral_quoted _ hk.1 hk.2.1⟩,
      ⟨?_, isSafeStringLiteral_quoted _ hr.1 hr.2.1⟩,
      fun hpne => ⟨?_, isSafeStringLiteral_quoted _ hp.1 hp.2.1⟩,
      fun hane => ⟨?_, isSafeStringLiteral_quoted _ ha.1 ha.2.1⟩⟩
    · rw [hlines]; simp [s3BackendLines]
    · rw [hlines]; simp [s3BackendLines]
    · rw [hlines]; simp [s3BackendLines]
    · rw [hlines]; simp [s3BackendLines, hpne]
    · rw [hlines]; simp [s3BackendLines, hane]
  · constructor
    · intro hp0 l hl
      rw [hlines] at hl
      simp only [s3BackendLines, hp0, if_true, if_pos rfl, List.append_assoc,
        List.mem_append, List.nil_append] at hl
      rcases hl with hA | hl2
      · simp only [List.mem_cons, List.not_mem_nil, or_false] at hA
        rcases hA with rfl | rfl | rfl | rfl | rfl | rfl | rfl
        · simp
        · decide
        · decide
        · decide
        · simp [List.cons_prefix_cons]
        · simp [List.cons_prefix_cons]
        · simp [List.cons_prefix_cons]
      · rcases hl2 with ha3 | hB
        · have := List.mem_singleton.mp (mem_ite_nil_left _ _ ha3)
          subst this
          simp [List.cons_prefix_cons]
        · simp only [List.mem_cons, List.not_mem_nil, or_false] at hB
          rcases hB with rfl | rfl
          · decide
          · decide
    · intro ha0 l hl
      rw [hlines] at hl
      simp only [s3BackendLines, ha0, if_true, if_pos rfl, List.append_assoc,
        List.mem_append, List.nil_append] at hl
      rcases hl with hA | hl2
      · simp only [List.mem_cons, List.not_mem_nil, or_false] at hA
        rcases hA with rfl | rfl | rfl | rfl | rfl | rfl | rfl
        · simp
        · decide
        · decide
        · decide
        · simp [List.cons_prefix_cons]
        · simp [List.cons_prefix_cons]
        · simp [List.cons_prefix_cons]
      · rcases hl2 with hp3 | hB
        · have := List.mem_singleton.mp (mem_ite_nil_left _ _ hp3)
          subst this
          simp [List.cons_prefix_cons]
        · simp only [List.mem_cons, List.not_mem_nil, or_false] at hB
          rcases hB with rfl | rfl
          · decide
          · decide

/-- Witness for C6's amended theorem at a concrete config with an empty
profile and a non-empty role ARN. -/
theorem s3_backend_quoting_and_omission_witness :
    "\t\tbucket     = ".data ++ '"' :: "b".data ++ ['"'] ∈
      splitNl (s3BackendTemplate ⟨"b", "k", "r", "arn", ""⟩).data ∧
    isSafeStringLiteral ('"' :: "b".data ++ ['"']) = true :=
  (s3_backend_quoting_and_omission ⟨"b", "k", "r", "arn", ""⟩
    ⟨by decide, by decide, by decide⟩ ⟨by decide, by decide, by decide⟩
    ⟨by decide, by decide, by decide⟩ ⟨by decide, by decide, by decide⟩
    ⟨by decide, by decide, by decide⟩).1.1

end TfDemo

namespace TfDemo

open Tfexec

/-- C1: `Terraform.Plan` translates the subprocess's detailed exit code
exactly: 0 ⇒ `(changed := false, no error)`, 2 ⇒ `(changed := true, no
error)`, and any other exit code ⇒ `changed = false` with an error whose
message contains the raw exit code. -/
theorem plan_exit_code_protocol :
    Plan (terraformExecDetailed 0) = (false, none) ∧
    Plan (terraformExecDetailed 2) = (true, none) ∧
    (∀ c : Int, c ≠ 0 → c ≠ 2 →
      (Plan (terraformExecDetailed c)).1 = false ∧
      ∃ msg, (Plan (terraformExecDetailed c)).2 = some msg ∧
        strContainsSub msg (toString c)) := by
  refine ⟨rfl, rfl, fun c h0 h2 => ?_⟩
  constructor
  · simp [Plan, terraformExecDetailed, h0, h2]
  · refine ⟨planUnexpectedMsg c, ?_, ?_⟩
    · simp [Plan, terraformExecDetailed, h0, h2]
    · refine ⟨"terraform plan unexpected exit code: ", "", ?_⟩
      simp [planUnexpectedMsg]

/-- Witness for C1: the protocol instantiated at exit code 3. -/
theorem plan_exit_code_protocol_witness :
    (Plan (terraformExecDetailed 3)).1 = false ∧
    ∃ msg, (Plan (terraformExecDetailed 3)).2 = some msg ∧
      strContainsSub msg (toString (3 : Int)) :=
  plan_exit_code_protocol.2.2 3 (by decide) (by decide)

/-- C4: output decoding attempts string, then list of strings, then
integer, in that order, and falls back to the raw payload; in particular
the payload `"hello"` decodes to the string `hello`, `["a","b"]` to the
list `[a,b]`, `42` to the integer `42`, and an object payload is returned
raw and unchanged. -/
theorem output_decoding_order :
    parseJson (.str "hello") = .str "hello" ∧
    parseJson (.arr [.str "a", .str "b"]) = .strList ["a", "b"] ∧
    parseJson (.num 42) = .int 42 ∧
    parseJson (.obj [("x", .num 1)]) = .raw (.obj [("x", .num 1)]) ∧
    (∀ m s, unmarshalString m = some s → parseJson m = .str s) ∧
    (∀ m ss, unmarshalString m = none → unmarshalStringList m = some ss →
      parseJson m = .strList ss) ∧
    (∀ m n, unmarshalString m = none → unmarshalStringList m = none →
      unmarshalInt m = some n → parseJson m = .int n) ∧
    (∀ m, unmarshalString m = none → unmarshalStringList m = none →
      unmarshalInt m = none → parseJson m = .raw m) := by
  refine ⟨rfl, rfl, rfl, rfl, ?_, ?_, ?_, ?_⟩
  · intro m s h; simp [parseJson, h]
  · intro m ss h1 h2; simp [parseJson, h1, h2]
  · intro m n h1 h2 h3; simp [parseJson, h1, h2, h3]
  · intro m h1 h2 h3; simp [parseJson, h1, h2, h3]

/-- Witness for C4: the fallback branch instantiated at the payload
`true`, which none of the three typed attempts accepts. -/
theorem output_decoding_order_witness :
    parseJson (.bool true) = .raw (.bool true) :=
  output_decoding_order.2.2.2.2.2.2.2 (.bool true) rfl rfl rfl

open Workflows

/-- Every entry into the loop body begins by invoking the Plan activity. -/
theorem wfLoop_head (plans : List (Except String PlanOutput)) (ds : List String)
    (ar : Except String ApplyOutput) :
    (wfLoop plans ds ar).1.head? = some .planInvoked := by
  cases plans with
  | nil => rfl
  | cons p ps =>
    cases p with
    | error e => rfl
    | ok po =>
      cases hpo : po.hasChanges with
      | false => simp [wfLoop, hpo]
      | true =>
        cases ds with
        | nil => simp [wfLoop, hpo]
        | cons d ds2 =>
          by_cases h1 : d = "plan"
          · simp [wfLoop, hpo, h1]
          · by_cases h2 : d = "reject"
            · simp [wfLoop, hpo, h1, h2]
            · by_cases h3 : d = "approve"
              · cases ar <;> simp [wfLoop, hpo, h1, h2, h3]
              · simp [wfLoop, hpo, h1, h2, h3]

/-- Loop step: a changed plan followed by `"plan"` or an unrecognized
token continues the loop (trace part). -/
theorem wfLoop_continue_fst (po : PlanOutput) (ps : List (Except String PlanOutput))
    (d : String) (ds2 : List String) (ar : Except String ApplyOutput)
    (hpo : po.hasChanges = true)
    (hd : d = "plan" ∨ (d ≠ "plan" ∧ d ≠ "reject" ∧ d ≠ "approve")) :
    (wfLoop (.ok po :: ps) (d :: ds2) ar).1 =
      .planInvoked :: .signalReceived d :: (wfLoop ps ds2 ar).1 := by
  rcases hd with hd | ⟨hd1, hd2, hd3⟩
  · subst hd; simp [wfLoop, hpo]
  · simp [wfLoop, hpo, hd1, hd2, hd3]

/-- Loop step: a changed plan followed by `"plan"` or an unrecognized
token continues the loop (outcome part). -/
theorem wfLoop_continue_snd (po : PlanOutput) (ps : List (Except String PlanOutput))
    (d : String) (ds2 : List String) (ar : Except String ApplyOutput)
    (hpo : po.hasChanges = true)
    (hd : d = "plan" ∨ (d ≠ "plan" ∧ d ≠ "reject" ∧ d ≠ "approve")) :
    (wfLoop (.ok po :: ps) (d :: ds2) ar).2 = (wfLoop ps ds2 ar).2 := by
  rcases hd with hd | ⟨hd1, hd2, hd3⟩
  · subst hd; simp [wfLoop, hpo]
  · simp [wfLoop, hpo, hd1, hd2, hd3]

/-- Loop step: a changed plan followed by `"reject"` returns at once
(trace part). -/
theorem wfLoop_reject_fst (po : PlanOutput) (ps : List (Except String PlanOutput))
    (ds2 : List String) (ar : Except String ApplyOutput)
    (hpo : po.hasChanges = true) :
    (wfLoop (.ok po :: ps) ("reject" :: ds2) ar).1 =
      [.planInvoked, .signalReceived "reject"] := by
  simp [wfLoop, hpo]

/-- Loop step: a changed plan followed by `"reject"` returns at once
(outcome part). -/
theorem wfLoop_reject_snd (po : PlanOutput) (ps : List (Except String PlanOutput))
    (ds2 : List String) (ar : Except String ApplyOutput)
    (hpo : po.hasChanges = true) :
    (wfLoop (.ok po :: ps) ("reject" :: ds2) ar).2 =
      .done emptyOutput none := by
  simp [wfLoop, hpo]

/-- Loop step: a changed plan followed by `"approve"` runs Apply and
returns (trace part). -/
theorem wfLoop_approve_fst (po : PlanOutput) (ps : List (Except String PlanOutput))
    (ds2 : List String) (ar : Except String ApplyOutput)
    (hpo : po.hasChanges = true) :
    (wfLoop (.ok po :: ps) ("approve" :: ds2) ar).1 =
      [.planInvoked, .signalReceived "approve", .applyInvoked] := by
  cases ar <;> simp [wfLoop, hpo]

/-- The loop trace is a singleton Plan invocation when the plans run
out, the plan errors, the diff is empty, or the tokens run out. -/
theorem wfLoop_singleton_cases (ds : List String) (ar : Except String ApplyOutput) :
    (∀ p ps, (wfLoop [] ds ar).1 = [.planInvoked] ∧
      (∀ e, p = Except.error e → (wfLoop (p :: ps) ds ar).1 = [.planInvoked])) ∧
    (∀ po ps, po.hasChanges = false →
      (wfLoop (.ok po :: ps) ds ar).1 = [.planInvoked]) ∧
    (∀ po ps, (wfLoop (.ok po :: ps) [] ar).1 = [.planInvoked]) := by
  refine ⟨fun p ps => ⟨rfl, fun e he => ?_⟩, fun po ps hpo => ?_, fun po ps => ?_⟩
  · subst he; rfl
  · cases ds with
    | nil => simp [wfLoop, hpo]
    | cons d ds2 => simp [wfLoop, hpo]
  · cases hpo : po.hasChanges <;> simp [wfLoop, hpo]

/-- If the `"reject"` token is ever received, Apply is never invoked and
the run returns the empty output without error. -/
theorem wfLoopRejectAux (plans : List (Except String PlanOutput))
    (ds : List String) (ar : Except String ApplyOutput)
    (h : WfEvent.signalReceived "reject" ∈ (wfLoop plans ds ar).1) :
    WfEvent.applyInvoked ∉ (wfLoop plans ds ar).1 ∧
      (wfLoop plans ds ar).2 = .done emptyOutput none := by
  induction plans generalizing ds with
  | nil => simp [wfLoop] at h
  | cons p ps ih =>
    cases p with
    | error e => simp [wfLoop] at h
    | ok po =>
      cases hpo : po.hasChanges with
      | false => simp [wfLoop, hpo] at h
      | true =>
        cases ds with
        | nil => simp [wfLoop, hpo] at h
        | cons d ds2 =>
          by_cases h1 : d = "plan"
          · subst h1
            rw [wfLoop_continue_fst po ps "plan" ds2 ar hpo (Or.inl rfl)] at h ⊢
            rw [wfLoop_continue_snd po ps "plan" ds2 ar hpo (Or.inl rfl)]
            simp only [List.mem_cons] at h
            rcases h with h | h | h
            · exact absurd h (by decide)
            · exact absurd h (by decide)
            · have hrec := ih ds2 h
              refine ⟨fun hmem => ?_, hrec.2⟩
              simp only [List.mem_cons] at hmem
              rcases hmem with hc | hc | hc
              · exact absurd hc (by decide)
              · exact absurd hc (by decide)
              · exact hrec.1 hc
          · by_cases h2 : d = "reject"
            · subst h2
              rw [wfLoop_reject_fst po ps ds2 ar hpo]
              rw [wfLoop_reject_snd po ps ds2 ar hpo]
              exact ⟨by decide, rfl⟩
            · by_cases h3 : d = "approve"
              · subst h3
                rw [wfLoop_approve_fst po ps ds2 ar hpo] at h
                exact absurd h (by decide)
              · rw [wfLoop_continue_fst po ps d ds2 ar hpo
                  (Or.inr ⟨h1, h2, h3⟩)] at h ⊢
                rw [wfLoop_continue_snd po ps d ds2 ar hpo
                  (Or.inr ⟨h1, h2, h3⟩)]
                simp only [List.mem_cons] at h
                rcases h with h | h | h
                · exact absurd h (by decide)
                · exact absurd ((WfEvent.signalReceived.injEq _ _).mp h).symm h2
                · have hrec := ih ds2 h
                  refine ⟨fun hmem => ?_, hrec.2⟩
                  simp only [List.mem_cons] at hmem
                  rcases hmem with hc | hc | hc
                  · exact absurd hc (by decide)
                  · exact WfEvent.noConfusion hc
                  · exact hrec.1 hc

/-- After a `"plan"` token the next event is another Plan invocation,
and the whole run invokes Plan at least twice. -/
theorem wfLoopPlanAux (plans : List (Except String PlanOutput))
    (ds : List String) (ar : Except String ApplyOutput) (i : Nat)
    (h : (wfLoop plans ds ar).1[i]? = some (.signalReceived "plan")) :
    (wfLoop plans ds ar).1[i + 1]? = some .planInvoked ∧
      2 ≤ countPlanInvocations (wfLoop plans ds ar).1 := by
  induction plans generalizing ds i with
  | nil =>
    rw [(wfLoop_singleton_cases ds ar).1 (Except.ok ⟨true, ""⟩) []
      |>.1] at h
    match i with
    | 0 => exact absurd h (by decide)
    | n + 1 => simp at h
  | cons p ps ih =>
    cases p with
    | error e =>
      rw [((wfLoop_singleton_cases ds ar).1 (Except.error e) ps).2 e rfl] at h
      match i with
      | 0 => exact absurd h (by decide)
      | n + 1 => simp at h
    | ok po =>
      cases hpo : po.hasChanges with
      | false =>
        rw [(wfLoop_singleton_cases ds ar).2.1 po ps hpo] at h
        match i with
        | 0 => exact absurd h (by decide)
        | n + 1 => simp at h
      | true =>
        cases ds with
        | nil =>
          rw [(wfLoop_singleton_cases [] ar).2.2 po ps] at h
          match i with
          | 0 => exact absurd h (by decide)
          | n + 1 => simp at h
        | cons d ds2 =>
          by_cases h1 : d = "plan"
          · subst h1
            rw [wfLoop_continue_fst po ps "plan" ds2 ar hpo (Or.inl rfl)] at h ⊢
            have hhead := wfLoop_head ps ds2 ar
            obtain ⟨t, ht⟩ : ∃ t, (wfLoop ps ds2 ar).1 = .planInvoked :: t := by
              cases hw : (wfLoop ps ds2 ar).1 with
              | nil => rw [hw] at hhead; simp at hhead
              | cons a t =>
                rw [hw] at hhead
                simp at hhead
                exact ⟨t, by rw [hhead]⟩
            match i with
            | 0 => exact absurd h (by simp)
            | 1 =>
              constructor
              · simp [ht]
              · simp [ht, countPlanInvocations]
            | n + 2 =>
              simp only [List.getElem?_cons_succ] at h
              have hrec := ih ds2 n h
              refine ⟨by simpa using hrec.1, ?_⟩
              have hc : countPlanInvocations (WfEvent.planInvoked ::
                  WfEvent.signalReceived "plan" :: (wfLoop ps ds2 ar).1) =
                  countPlanInvocations (wfLoop ps ds2 ar).1 + 1 := by
                simp [countPlanInvocations]
              rw [hc]
              exact Nat.le_succ_of_le hrec.2
          · by_cases h2 : d = "reject"
            · subst h2
              rw [wfLoop_reject_fst po ps ds2 ar hpo] at h
              match i with
              | 0 => exact absurd h (by decide)
              | 1 => exact absurd h (by decide)
              | n + 2 => simp at h
            · by_cases h3 : d = "approve"
              · subst h3
                rw [wfLoop_approve_fst po ps ds2 ar hpo] at h
                match i with
                | 0 => exact absurd h (by decide)
                | 1 => exact absurd h (by decide)
                | 2 => exact absurd h (by decide)
                | n + 3 => simp at h
              · rw [wfLoop_continue_fst po ps d ds2 ar hpo
                  (Or.inr ⟨h1, h2, h3⟩)] at h ⊢
                match i with
                | 0 => exact absurd h (by simp)
                | 1 =>
                  simp only [List.getElem?_cons_succ, List.getElem?_cons_zero,
                    Option.some.injEq] at h
                  exact absurd ((WfEvent.signalReceived.injEq _ _).mp h) h1
                | n + 2 =>
                  simp only [List.getElem?_cons_succ] at h
                  have hrec := ih ds2 n h
                  refine ⟨by simpa using hrec.1, ?_⟩
                  have hc : countPlanInvocations (WfEvent.planInvoked ::
                      WfEvent.signalReceived d :: (wfLoop ps ds2 ar).1) =
                      countPlanInvocations (wfLoop ps ds2 ar).1 + 1 := by
                    simp [countPlanInvocations]
                  rw [hc]
                  exact Nat.le_succ_of_le hrec.2

/-- C2 counterexample: in the run whose first two plans report changes,
receiving the unrecognized token `"bogus"` does not return directly to
waiting for the next token — the Plan activity is invoked again between
the receipt of `"bogus"` and the receipt of the next token. -/
theorem wf_unrecognized_token_counterexample :
    (wfLoop [.ok ⟨true, "plan1"⟩, .ok ⟨true, "plan2"⟩] ["bogus", "reject"]
        (.ok emptyOutput)).1 =
      [.planInvoked, .signalReceived "bogus", .planInvoked,
        .signalReceived "reject"] := by
  decide

/-- C2 amended: an unrecognized decision token invokes neither Apply nor
terminates the run, but it does not return directly to waiting — it
continues the loop exactly as `"plan"` does, so the Plan activity is
re-invoked (the continuation's first event is a Plan invocation) before
the next token is awaited. -/
theorem wf_unrecognized_token_replans (po : PlanOutput)
    (ps : List (Except String PlanOutput)) (d : String) (ds : List String)
    (ar : Except String ApplyOutput) (hchanges : po.hasChanges = true)
    (hd1 : d ≠ "plan") (hd2 : d ≠ "reject") (hd3 : d ≠ "approve") :
    wfLoop (.ok po :: ps) (d :: ds) ar =
      (.planInvoked :: .signalReceived d :: (wfLoop ps ds ar).1,
        (wfLoop ps ds ar).2) ∧
    (wfLoop ps ds ar).1.head? = some .planInvoked := by
  constructor
  · simp [wfLoop, hchanges, hd1, hd2, hd3]
  · exact wfLoop_head ps ds ar

/-- Witness for C2's amended theorem, at the token `"bogus"`. -/
theorem wf_unrecognized_token_replans_witness :
    wfLoop [.ok ⟨true, "f"⟩] ["bogus"] (.ok emptyOutput) =
      (.planInvoked :: .signalReceived "bogus" ::
          (wfLoop [] [] (.ok emptyOutput)).1,
        (wfLoop [] [] (.ok emptyOutput)).2) ∧
    (wfLoop [] [] (.ok emptyOutput)).1.head? = some .planInvoked :=
  wf_unrecognized_token_replans ⟨true, "f"⟩ [] "bogus" [] (.ok emptyOutput)
    rfl (by decide) (by decide) (by decide)

/-- C3: a run that receives `"reject"` never invokes Apply and ends with
the empty result and no error; and whenever `"plan"` is received the run
invokes Plan at least twice, the second time immediately after the token
— before any further token is consumed or the run terminates. -/
theorem wf_reject_never_applies_plan_replans :
    (∀ plans ds ar,
      WfEvent.signalReceived "reject" ∈ (wfLoop plans ds ar).1 →
      WfEvent.applyInvoked ∉ (wfLoop plans ds ar).1 ∧
        (wfLoop plans ds ar).2 = .done emptyOutput none) ∧
    (∀ plans ds ar i,
      (wfLoop plans ds ar).1[i]? = some (.signalReceived "plan") →
      (wfLoop plans ds ar).1[i + 1]? = some .planInvoked ∧
        2 ≤ countPlanInvocations (wfLoop plans ds ar).1) :=
  ⟨fun plans ds ar h => wfLoopRejectAux plans ds ar h,
    fun plans ds ar i h => wfLoopPlanAux plans ds ar i h⟩

/-- Witness for C3: a rejected run, and a run re-planned once. -/
theorem wf_reject_never_applies_plan_replans_witness :
    (WfEvent.applyInvoked ∉
        (wfLoop [.ok ⟨true, "f"⟩] ["reject"] (.ok emptyOutput)).1 ∧
      (wfLoop [.ok ⟨true, "f"⟩] ["reject"] (.ok emptyOutput)).2 =
        .done emptyOutput none) ∧
    ((wfLoop [.ok ⟨true, "f"⟩, .ok ⟨false, "g"⟩] ["plan"]
          (.ok emptyOutput)).1[2]? = some .planInvoked ∧
      2 ≤ countPlanInvocations (wfLoop [.ok ⟨true, "f"⟩, .ok ⟨false, "g"⟩]
          ["plan"] (.ok emptyOutput)).1) :=
  ⟨wf_reject_never_applies_plan_replans.1 [.ok ⟨true, "f"⟩] ["reject"]
      (.ok emptyOutput) (by decide),
    wf_reject_never_applies_plan_replans.2 [.ok ⟨true, "f"⟩, .ok ⟨false, "g"⟩]
      ["plan"] (.ok emptyOutput) 1 (by decide)⟩


open Tfworkspace in
/-- C5: whenever `BundleForApply` or `BundleForDestroy` returns an
error, the partially-written temp archive file has been removed by the
deferred cleanup before returning — no half-built bundle remains. -/
theorem bundle_error_removes_artifact :
    (∀ (b : BundleBuilder) (run : ApplyBundleRun) (e : String),
      (BundleForApply b run).1 = .error e → (BundleForApply b run).2 = false) ∧
    (∀ (b : BundleBuilder) (run : DestroyBundleRun) (e : String),
      (BundleForDestroy b run).1 = .error e →
        (BundleForDestroy b run).2 = false) := by
  constructor
  · intro b run e h
    unfold BundleForApply at h ⊢
    cases hf : b.hasFsys with
    | false => simp [hf]
    | true =>
      simp only [hf, Bool.not_true, if_false, Bool.false_eq_true] at h ⊢
      cases hc : run.createTempErr with
      | some e2 => simp [hc]
      | none =>
        simp only [hc] at h ⊢
        cases hb : bundleForApplyBodyErr b run with
        | some e3 => simp [hb]
        | none => simp [hb] at h
  · intro b run e h
    unfold BundleForDestroy at h ⊢
    cases hf : b.hasFsys with
    | false => simp [hf]
    | true =>
      simp only [hf, Bool.not_true, if_false, Bool.false_eq_true] at h ⊢
      cases hc : run.createTempErr with
      | some e2 => simp [hc]
      | none =>
        simp only [hc] at h ⊢
        cases hb : bundleForDestroyBodyErr b run with
        | some e3 => simp [hb]
        | none => simp [hb] at h

open Tfworkspace in
/-- Witness for C5: a tree-walk failure during the apply bundle and a
missing `versions.tf` during the destroy bundle both leave no archive. -/
theorem bundle_error_removes_artifact_witness :
    (BundleForApply ⟨[], true, "terraform", true⟩
      ⟨"tmp1", none, some "walk failed", none, none, none, none, none, none,
        fun _ => none, none⟩).2 = false ∧
    (BundleForDestroy ⟨[], true, "terraform", true⟩
      ⟨"tmp2", none, some "open versions.tf: file does not exist", none, none,
        none, none, none, fun _ => none, none⟩).2 = false :=
  ⟨bundle_error_removes_artifact.1 _ _ "walk failed" rfl,
    bundle_error_removes_artifact.2 _ _
      "open versions.tf: file does not exist" rfl⟩

/-- The interceptor fold accumulates exactly the chunks whose trimmed
text starts with the error marker, in order. -/
theorem runInterceptorAux (chunks acc : List String) :
    chunks.foldl (fun acc p => (interceptorWrite acc p).1) acc =
      acc ++ chunks.filter fun p => (trimSpace p).startsWith "Error:" := by
  induction chunks generalizing acc with
  | nil => simp
  | cons p rest ih =>
    simp only [List.foldl_cons, List.filter_cons]
    by_cases hp : (trimSpace p).startsWith "Error:"
    · rw [ih]
      simp [interceptorWrite, hp]
    · rw [ih]
      simp [interceptorWrite, hp]

/-- C7: on a failing exit, the error message is the error-marker chunks
— exactly those whose trimmed text starts with `Error:`, accumulated
verbatim and in order — joined with newlines; non-matching chunks are
never accumulated; the interceptor always accepts the full write and
never signals an error (so matching lines never abort the stream); a
clean exit produces no error. -/
theorem exec_error_marker_aggregation :
    (∀ errors p, (interceptorWrite errors p).2.1 = p.length ∧
      (interceptorWrite errors p).2.2 = none) ∧
    (∀ chunks, runInterceptor chunks =
      chunks.filter fun p => (trimSpace p).startsWith "Error:") ∧
    (∀ chunks e, terraformExec chunks (some e) =
      some ("terraform error: " ++
        String.intercalate "\n"
          (chunks.filter fun p => (trimSpace p).startsWith "Error:") ++
        "\n" ++ e)) ∧
    (∀ chunks, terraformExec chunks none = none) := by
  refine ⟨fun errors p => ⟨rfl, rfl⟩, fun chunks => ?_, fun chunks e => ?_,
    fun chunks => rfl⟩
  · simpa using runInterceptorAux chunks []
  · show some (terraformExecErrMsg (runInterceptor chunks) e) = _
    rw [terraformExecErrMsg, runInterceptor, runInterceptorAux chunks []]
    simp

/-- C8 counterexample: when the SIGINT attempt fails with an error other
than `os.ErrProcessDone`, the goroutine sends SIGKILL immediately — here
the process exits within the 30-second grace window (third argument
`true`), yet a forceful kill was sent, contradicting "only if the
process is still running after that deadline is a forceful kill signal
sent". -/
theorem cancel_protocol_counterexample :
    CancelAction.sigkillGroup ∈
      cancelProtocol false (.errOther "operation not permitted") true := by
  decide

/-- C8 amended: if the process already exited nothing is sent; otherwise
SIGINT to the process group is attempted first; if that attempt fails
with `os.ErrProcessDone` nothing more is done; if it fails with any
other error a SIGKILL of the group and a direct child kill are sent
immediately; in every non-`ErrProcessDone` case the goroutine then waits
through the 200 ms / 30 s poll loop and sends the group SIGKILL plus the
direct child kill (again) only when the process has not exited within
the grace window. -/
theorem cancel_protocol_amended :
    (∀ r g, cancelProtocol true r g = []) ∧
    (∀ r g, (cancelProtocol false r g).head? = some .sigintGroup) ∧
    (∀ g, cancelProtocol false .errProcessDone g = [.sigintGroup]) ∧
    (∀ g, cancelProtocol false .ok g =
      [.sigintGroup] ++ (if g then [] else [.sigkillGroup, .killChild])) ∧
    (∀ e g, cancelProtocol false (.errOther e) g =
      [.sigintGroup, .sigkillGroup, .killChild] ++
        (if g then [] else [.sigkillGroup, .killChild])) ∧
    pollIntervalMs = 200 ∧ graceTimeoutMs = 30000 := by
  refine ⟨fun r g => rfl, fun r g => ?_, fun g => rfl, fun g => rfl,
    fun e g => rfl, rfl, rfl⟩
  cases r <;> cases g <;> rfl

open Tfworkspace in
/-- The import loop never reads the per-import results. -/
theorem importLoop_ignores_results (imports : List (String × String))
    (ie1 ie2 : String → Option String) (ctx : Nat → Option String)
    (idx : Nat) :
    importLoop imports ie1 ctx idx = importLoop imports ie2 ctx idx := by
  induction imports generalizing idx with
  | nil => rfl
  | cons kv rest ih =>
    obtain ⟨k, v⟩ := kv
    simp only [importLoop]
    cases hc : ctx idx with
    | some e => rfl
    | none => rw [ih]

open Tfworkspace in
/-- Without a cancellation, the import loop visits every entry and
completes. -/
theorem importLoop_no_cancel (imports : List (String × String))
    (ie : String → Option String) (ctx : Nat → Option String) (idx : Nat)
    (h : ∀ i, ctx i = none) :
    importLoop imports ie ctx idx =
      (.ok (), imports.map fun kv => ApplyOp.importOp kv.1 kv.2) := by
  induction imports generalizing idx with
  | nil => rfl
  | cons kv rest ih =>
    obtain ⟨k, v⟩ := kv
    simp only [importLoop, h idx]
    rw [ih (idx + 1)]
    simp

open Tfworkspace in
/-- A context cancelled after the k-th import aborts the loop there with
the context error. -/
theorem importLoop_cancel (imports : List (String × String))
    (ie : String → Option String) (ctx : Nat → Option String)
    (idx k : Nat) (e : String) (hk : k < imports.length)
    (hc : ctx (idx + k) = some e)
    (hprev : ∀ j, j < k → ctx (idx + j) = none) :
    (importLoop imports ie ctx idx).1 = .error e ∧
    (importLoop imports ie ctx idx).2 =
      (imports.take (k + 1)).map fun kv => ApplyOp.importOp kv.1 kv.2 := by
  induction imports generalizing idx k with
  | nil => simp at hk
  | cons kv rest ih =>
    obtain ⟨kk, v⟩ := kv
    cases k with
    | zero =>
      have h0 : ctx idx = some e := by simpa using hc
      simp [importLoop, h0]
    | succ k2 =>
      have h0 : ctx idx = none := by simpa using hprev 0 (Nat.succ_pos k2)
      have hc2 : ctx ((idx + 1) + k2) = some e := by
        rw [show (idx + 1) + k2 = idx + (k2 + 1) by omega]
        exact hc
      have hprev2 : ∀ j, j < k2 → ctx ((idx + 1) + j) = none := by
        intro j hj
        rw [show (idx + 1) + j = idx + (j + 1) by omega]
        exact hprev (j + 1) (by omega)
      have hrec := ih (idx + 1) k2 (by simpa using hk) hc2 hprev2
      simp only [importLoop, h0]
      refine ⟨by simpa using hrec.1, ?_⟩
      simp only [List.take, List.map]
      simpa using hrec.2

open Tfworkspace in
/-- C9: the result of every speculative import is intentionally ignored
— the run's outcome and operation trace are independent of the import
results, and with no cancellation the loop always reaches the apply —
except that a context cancelled during the loop aborts the run
immediately with the cancellation error, before apply. -/
theorem apply_import_errors_swallowed :
    (∀ imports ie1 ie2 ctx applyErr out,
      applyAfterInit imports ie1 ctx applyErr out =
        applyAfterInit imports ie2 ctx applyErr out) ∧
    (∀ imports ie ctx applyErr out, (∀ i, ctx i = none) →
      ApplyOp.applyOp ∈ (applyAfterInit imports ie ctx applyErr out).2) ∧
    (∀ imports ie ctx applyErr out k e, k < imports.length →
      ctx k = some e → (∀ j, j < k → ctx j = none) →
      (applyAfterInit imports ie ctx applyErr out).1 = .error e ∧
      ApplyOp.applyOp ∉ (applyAfterInit imports ie ctx applyErr out).2) := by
  refine ⟨fun imports ie1 ie2 ctx applyErr out => ?_,
    fun imports ie ctx applyErr out h => ?_,
    fun imports ie ctx applyErr out k e hk hc hprev => ?_⟩
  · unfold applyAfterInit
    rw [importLoop_ignores_results imports ie1 ie2 ctx 0]
  · unfold applyAfterInit
    rw [importLoop_no_cancel imports ie ctx 0 h]
    cases applyErr with
    | some e2 => simp
    | none => cases out <;> simp
  · have hloop := importLoop_cancel imports ie ctx 0 k e hk
      (by simpa using hc) (fun j hj => by simpa using hprev j hj)
    unfold applyAfterInit
    cases hIL : importLoop imports ie ctx 0 with
    | mk fst snd =>
      rw [hIL] at hloop
      simp only at hloop
      rw [hloop.1, hloop.2]
      constructor
      · rfl
      · intro hmem
        rcases List.mem_map.mp hmem with ⟨kv, _, hkv⟩
        exact ApplyOp.noConfusion hkv

open Tfworkspace in
/-- Witness for C9: one failing import does not stop the run from
reaching apply, and a cancellation after the first import aborts it. -/
theorem apply_import_errors_swallowed_witness :
    ApplyOp.applyOp ∈
      (applyAfterInit [("aws_vpc.main", "vpc-1")]
        (fun _ => some "import failed") (fun _ => none) none (.ok [])).2 ∧
    ((applyAfterInit [("aws_vpc.main", "vpc-1"), ("aws_subnet.a", "sn-1")]
        (fun _ => none) (fun i => if i = 0 then some "context canceled" else none)
        none (.ok [])).1 = .error "context canceled" ∧
      ApplyOp.applyOp ∉
        (applyAfterInit [("aws_vpc.main", "vpc-1"), ("aws_subnet.a", "sn-1")]
          (fun _ => none) (fun i => if i = 0 then some "context canceled" else none)
          none (.ok [])).2) :=
  ⟨apply_import_errors_swallowed.2.1 _ _ _ none (.ok []) (fun _ => rfl),
    apply_import_errors_swallowed.2.2 _ _ _ none (.ok []) 0 "context canceled"
      (by decide) rfl (fun j hj => absurd hj (Nat.not_lt_zero j))⟩

open Tfworkspace in
/-- Appending a fresh map to the heap leaves existing references
unchanged. -/
theorem heapGet_append_lt (h : Heap) (x : EnvMap) (r : Nat)
    (hr : r < h.length) : heapGet (h ++ [x]) r = heapGet h r := by
  simp only [heapGet, List.getD]
  rw [List.get?_eq_getElem?, List.get?_eq_getElem?, List.getElem?_append_left hr]

open Tfworkspace in
/-- Writing through one reference leaves the others unchanged. -/
theorem heapGet_set_ne (h : Heap) (r1 r2 : Nat) (m : EnvMap)
    (hne : r2 ≠ r1) : heapGet (heapSet h r2 m) r1 = heapGet h r1 := by
  simp [heapGet, heapSet, List.getD]
  rw [List.getElem?_set_ne hne]

open Tfworkspace in
/-- C10: the env preparation of Apply and Destroy, and `terraformEnv`,
write the credential entries only into a freshly allocated map — the
caller's map is unchanged afterwards, and the map handed to the
subprocess is a different reference. -/
theorem env_map_never_mutated :
    (∀ (h : Heap) (envRef : Nat) (creds : Credentials), envRef < h.length →
      heapGet (injectCredentials h envRef creds).1 envRef = heapGet h envRef ∧
      (injectCredentials h envRef creds).2 ≠ envRef) ∧
    (∀ (h : Heap) (mergeRef : Nat) (creds : Credentials),
      mergeRef < h.length →
      heapGet (terraformEnv h mergeRef creds).1 mergeRef =
        heapGet h mergeRef ∧
      (terraformEnv h mergeRef creds).2 ≠ mergeRef) := by
  constructor
  · intro h envRef creds hlt
    constructor
    · show heapGet (heapSet (h ++ [heapGet h envRef]) h.length _) envRef = _
      rw [heapGet_set_ne _ _ _ _ (by omega), heapGet_append_lt _ _ _ hlt]
    · show h.length ≠ envRef
      omega
  · intro h mergeRef creds hlt
    constructor
    · show heapGet (h ++ [_]) mergeRef = _
      rw [heapGet_append_lt _ _ _ hlt]
    · show h.length ≠ mergeRef
      omega

open Tfworkspace in
/-- Witness for C10 at a one-entry heap. -/
theorem env_map_never_mutated_witness :
    heapGet (injectCredentials [[("TF_LOG", "debug")]] 0 ⟨"ak", "sk", "tok"⟩).1 0 =
      heapGet [[("TF_LOG", "debug")]] 0 ∧
    (injectCredentials [[("TF_LOG", "debug")]] 0 ⟨"ak", "sk", "tok"⟩).2 ≠ 0 :=
  env_map_never_mutated.1 [[("TF_LOG", "debug")]] 0 ⟨"ak", "sk", "tok"⟩
    (by decide)

end TfDemo
